import Mathlib

/-!
# Verification of the `slurp` file-I/O convenience library

Shallow embedding of `src/lib.rs` (crate `slurp`). The filesystem is modelled
as a partial map from paths to byte lists; every operation of the library is
translated from the Rust source into a pure Lean function over that map.

Modelling conventions:
* A file's content is a `List Nat` of bytes. A Rust `String` is identified
  with its byte sequence (UTF-8 validity is not re-modelled: every text value
  handled by the claims originates from a Rust `String` and is therefore
  valid, and decoding is total on such values).
* `std::io::Error` is the inductive `IoError`; `File::open` on an absent path
  fails with `IoError.notFound`.
* `File::create` truncates or creates and is modelled as always succeeding;
  `flush` on a `File` is a no-op.  Mid-stream write failures (disk full,
  interruption) are modelled by a fault oracle `wfault : Nat → Option IoError`
  passed to the line-writing loops: `wfault k = some e` means the `k`-th
  `writeln!` call fails with `e` before writing any byte (a failing `writeln!`
  is atomic).  The fault-free environment is `noFault`.
* `BufRead::lines` over an open file is modelled by snapshotting the file's
  content at open time and splitting it into lines exactly as
  `std::io::Lines` does: chunks are separated by the byte `0x0A`; a chunk
  that was terminated by `0x0A` additionally loses one trailing `0x0D`; a
  final chunk at end-of-file without a terminator is kept verbatim.
-/

/-- A platform path, as supplied by the caller. -/
abbrev FPath := String

/-- The modelled filesystem: each path maps to the byte content of the file
at that path, or `none` when no file exists there. -/
abbrev FS := FPath → Option (List Nat)

/-- Replace (or create) the file at `p` with content `c`. -/
def FS.writeFile (fs : FS) (p : FPath) (c : List Nat) : FS :=
  fun q => if q = p then some c else fs q

/-- The single error kind of the library (`std::io::Error`): an open failure
on an absent path, or any other platform I/O failure, identified by a code. -/
inductive IoError where
  | notFound (p : FPath)
  | other (code : Nat)
deriving DecidableEq

/-- A line: the byte sequence of a Rust `String` with the separator stripped. -/
abbrev Line := List Nat

/-- Remove one trailing carriage-return byte (`0x0D`), as `io::Lines` does to
a chunk that was terminated by a newline byte. -/
def stripCR (l : List Nat) : List Nat :=
  if l.getLast? = some 13 then l.dropLast else l

/-- Worker for `splitLines`: `acc` holds the bytes of the current chunk in
reverse.  A chunk closed by the byte `0x0A` is emitted with `stripCR`; a final
non-empty chunk at end of input is emitted verbatim (no newline was read, so
`io::Lines` does not strip a carriage return from it); reaching end of input
with an empty chunk emits nothing (`read_line` returned `Ok(0)`). -/
def splitLinesAux : List Nat → List Nat → List (List Nat)
  | acc, [] => if acc.isEmpty then [] else [acc.reverse]
  | acc, b :: rest =>
    if b = 10 then stripCR acc.reverse :: splitLinesAux [] rest
    else splitLinesAux (b :: acc) rest

/-- Split a file's bytes into the lines `io::Lines` would yield, in order. -/
def splitLines (bs : List Nat) : List (List Nat) :=
  splitLinesAux [] bs

/-- The byte stream produced by writing each line followed by the newline
byte `0x0A`, in input order (what the `writeln!` loops emit). -/
def linesBytes : List Line → List Nat
  | [] => []
  | l :: ls => l ++ 10 :: linesBytes ls

/-- `read_all_to_string`: open the file, read everything into a string.
Fails when the path cannot be opened. -/
def read_all_to_string (fs : FS) (filename : FPath) : Except IoError (List Nat) :=
  match fs filename with
  | none => .error (.notFound filename)
  | some c => .ok c

/-- `read_all_bytes`: open the file, read everything into a byte vector. -/
def read_all_bytes (fs : FS) (filename : FPath) : Except IoError (List Nat) :=
  match fs filename with
  | none => .error (.notFound filename)
  | some c => .ok c

/-- The `Lines` iterator struct: a stored copy of the path and an optional
open line reader.  `iter = none` models `self.iter. is_none()`; once the file
has been opened, `iter = some ls` holds the lines remaining to be yielded by
the underlying `io::Lines`. -/
structure Lines where
  filename : FPath
  iter : Option (List Line)
deriving DecidableEq

/-- `iterate_all_lines`: construct the producer.  Its Lean type takes no
filesystem argument at all, mirroring that the Rust function performs no
filesystem operation: it only copies the path into the struct. -/
def iterate_all_lines (filename : FPath) : Lines :=
  { filename := filename, iter := none }

/-- `self.iter.as_mut().and_then(|i| i.next())`: the delegated call to the
underlying `io::Lines` reader.  Yields the next remaining line, or `none` at
end of input (and keeps returning `none` thereafter). -/
def innerNext (l : Lines) : Option (Except IoError Line) × Lines :=
  match l.iter with
  | none => (none, l)
  | some [] => (none, l)
  | some (x :: xs) => (some (.ok x), { l with iter := some xs })

/-- `<Lines as Iterator>::next`, against filesystem `fs`.  When `iter` is
`none` it attempts `File::open`: on failure it returns the error immediately,
leaving `iter` untouched (still `none`); on success it installs the reader
and falls through to the delegated call. -/
def Lines.next (fs : FS) (l : Lines) : Option (Except IoError Line) × Lines :=
  match l.iter with
  | none =>
    match fs l.filename with
    | none => (some (.error (.notFound l.filename)), l)
    | some c => innerNext { l with iter := some (splitLines c) }
  | some _ => innerNext l

/-- Apply `Lines.next` `n` times (discarding the yields), returning the final
iterator state. -/
def runNexts (fs : FS) : Nat → Lines → Lines
  | 0, l => l
  | n + 1, l => runNexts fs n (Lines.next fs l).2

/-- Termination measure for collecting the iterator under a fixed `fs`. -/
def linesMeasure (fs : FS) (l : Lines) : Nat :=
  match l.iter with
  | some ls => 1 + ls.length
  | none => 2 + (splitLines ((fs l.filename).getD [])).length

theorem next_ok_measure (fs : FS) (l : Lines) (x : Line) (l2 : Lines)
    (h : Lines.next fs l = (some (.ok x), l2)) :
    linesMeasure fs l2 < linesMeasure fs l := by
  unfold Lines.next at h
  cases hit : l.iter with
  | none =>
    rw [hit] at h
    cases hfs : fs l.filename with
    | none => rw [hfs] at h; exact absurd (congrArg Prod.fst h) (by simp)
    | some c =>
      rw [hfs] at h
      unfold innerNext at h
      cases hsl : splitLines c with
      | nil => simp [hsl] at h
      | cons y ys =>
        simp only [hsl] at h
        injection h with h1 h2
        subst h2
        simp [linesMeasure, hit, hfs, hsl]
        omega
  | some ls =>
    rw [hit] at h
    unfold innerNext at h
    cases ls with
    | nil => simp [hit] at h
    | cons y ys =>
      simp only [hit] at h
      injection h with h1 h2
      subst h2
      simp [linesMeasure, hit]

/-- `Iterator::collect::<io::Result<Vec<String>>>` over a `Lines` iterator:
drive `next` until it yields `none` (collecting the `Ok` items in order) or
until the first `Err`, which is returned at once, discarding what was
collected. -/
def collectFrom (fs : FS) (l : Lines) : Except IoError (List Line) :=
  match h : Lines.next fs l with
  | (none, _) => .ok []
  | (some (.error e), _) => .error e
  | (some (.ok x), l2) =>
    match collectFrom fs l2 with
    | .error e => .error e
    | .ok xs => .ok (x :: xs)
termination_by linesMeasure fs l
decreasing_by exact next_ok_measure fs l x l2 h

/-- `read_all_lines`: `iterate_all_lines(filename).collect()`. -/
def read_all_lines (fs : FS) (filename : FPath) : Except IoError (List Line) :=
  collectFrom fs (iterate_all_lines filename)

/-- Modelled from the spec (§4.1): materializing the lazy line producer into
an ordered collection — the file's lines in file order on success, the first
error immediately otherwise, lines collected so far discarded. -/
def read_all_lines_spec (fs : FS) (filename : FPath) : Except IoError (List Line) :=
  match fs filename with
  | none => .error (.notFound filename)
  | some c => .ok (splitLines c)

/-- `write_all_bytes`: `File::create` (create or truncate), `write_all`,
`flush`. -/
def write_all_bytes (fs : FS) (filename : FPath) (bytes : List Nat) :
    Except IoError Unit × FS :=
  (.ok (), FS.writeFile fs filename bytes)

/-- `write_all_text`: delegates to `write_all_bytes` on the text's bytes. -/
def write_all_text (fs : FS) (filename : FPath) (text : List Nat) :
    Except IoError Unit × FS :=
  write_all_bytes fs filename text

/-- The `writeln!` loop shared by `write_all_lines` and `append_all_lines`:
`k` counts the `writeln!` calls issued so far, `c` is the open file's current
content.  The `k`-th call fails (atomically) exactly when `wfault k = some e`,
and the error is returned at once, leaving the content written so far. -/
def writeLinesLoop (wfault : Nat → Option IoError) :
    Nat → List Nat → List Line → Except IoError Unit × List Nat
  | _, c, [] => (.ok (), c)
  | k, c, l :: ls =>
    match wfault k with
    | some e => (.error e, c)
    | none => writeLinesLoop wfault (k + 1) (c ++ l ++ [10]) ls

/-- The fault-free write environment: no `writeln!` call fails. -/
def noFault : Nat → Option IoError := fun _ => none

/-- `write_all_lines`: `File::create` (truncating to empty), then one
`writeln!` per input line, then `flush`.  On a mid-loop failure the file keeps
exactly the bytes already written. -/
def write_all_lines (wfault : Nat → Option IoError) (fs : FS) (filename : FPath)
    (lines : List Line) : Except IoError Unit × FS :=
  let r := writeLinesLoop wfault 0 [] lines
  (r.1, FS.writeFile fs filename r.2)

/-- `append_all_bytes`: `OpenOptions::new().create(true).append(true)` (keep
existing content, or start empty), `write_all`, `flush`. -/
def append_all_bytes (fs : FS) (filename : FPath) (bytes : List Nat) :
    Except IoError Unit × FS :=
  (.ok (), FS.writeFile fs filename ((fs filename).getD [] ++ bytes))

/-- `append_all_text`: delegates to `append_all_bytes` on the text's bytes. -/
def append_all_text (fs : FS) (filename : FPath) (text : List Nat) :
    Except IoError Unit × FS :=
  append_all_bytes fs filename text

/-- `append_all_lines`: open in create-append mode (existing content kept),
then one `writeln!` per input line, then `flush`. -/
def append_all_lines (wfault : Nat → Option IoError) (fs : FS) (filename : FPath)
    (lines : List Line) : Except IoError Unit × FS :=
  let r := writeLinesLoop wfault 0 ((fs filename).getD []) lines
  (r.1, FS.writeFile fs filename r.2)

/-- The empty filesystem: no path holds a file. -/
def emptyFS : FS := fun _ => none

/-- A sample path for concrete witnesses. -/
def p0 : FPath := "myfile.txt"

/-! ## Helper lemmas -/

theorem collect_opened (fs : FS) :
    ∀ (ls : List Line) (pn : FPath),
    collectFrom fs { filename := pn, iter := some ls } = .ok ls := by
  intro ls
  induction ls with
  | nil =>
    intro pn
    rw [collectFrom]
    simp [Lines.next, innerNext]
  | cons x xs ih =>
    intro pn
    rw [collectFrom]
    simp [Lines.next, innerNext, ih]

theorem collectFrom_none (fs : FS) (l : Lines) (l2 : Lines)
    (h : Lines.next fs l = (none, l2)) : collectFrom fs l = .ok [] := by
  rw [collectFrom]
  split
  · rfl
  · rename_i heq
    rw [h] at heq
    simp at heq
  · rename_i heq
    rw [h] at heq
    simp at heq

theorem collectFrom_err (fs : FS) (l : Lines) (e : IoError) (l2 : Lines)
    (h : Lines.next fs l = (some (.error e), l2)) : collectFrom fs l = .error e := by
  rw [collectFrom]
  split
  · rename_i heq
    rw [h] at heq
    simp at heq
  · rename_i heq
    rw [h] at heq
    simp at heq
    simp [heq.1]
  · rename_i heq
    rw [h] at heq
    simp at heq

theorem collectFrom_ok_step (fs : FS) (l : Lines) (x : Line) (l2 : Lines)
    (h : Lines.next fs l = (some (.ok x), l2)) :
    collectFrom fs l =
      match collectFrom fs l2 with
      | .error e => .error e
      | .ok xs => .ok (x :: xs) := by
  rw [collectFrom]
  split
  · rename_i heq
    rw [h] at heq
    simp at heq
  · rename_i heq
    rw [h] at heq
    simp at heq
  · rename_i heq
    rw [h] at heq
    simp at heq
    rw [heq.1, heq.2]

theorem read_all_lines_eq (fs : FS) (p : FPath) :
    read_all_lines fs p = read_all_lines_spec fs p := by
  unfold read_all_lines read_all_lines_spec iterate_all_lines
  cases hfs : fs p with
  | none =>
    have hnext : Lines.next fs { filename := p, iter := none } =
        (some (.error (.notFound p)), { filename := p, iter := none }) := by
      simp [Lines.next, hfs]
    rw [collectFrom_err fs _ _ _ hnext]
  | some c =>
    cases hsl : splitLines c with
    | nil =>
      have hnext : Lines.next fs { filename := p, iter := none } =
          (none, { filename := p, iter := some [] }) := by
        simp [Lines.next, innerNext, hfs, hsl]
      rw [collectFrom_none fs _ _ hnext]
      simp [hsl]
    | cons x xs =>
      have hnext : Lines.next fs { filename := p, iter := none } =
          (some (.ok x), { filename := p, iter := some xs }) := by
        simp [Lines.next, innerNext, hfs, hsl]
      rw [collectFrom_ok_step fs _ x _ hnext, collect_opened]
      simp [hsl]

theorem splitLinesAux_append (rest : List Nat) :
    ∀ (l acc : List Nat), 10 ∉ l →
    splitLinesAux acc (l ++ 10 :: rest) =
      stripCR (acc.reverse ++ l) :: splitLinesAux [] rest := by
  intro l
  induction l with
  | nil =>
    intro acc h
    simp [splitLinesAux]
  | cons b l2 ih =>
    intro acc h
    have hb : b ≠ 10 := fun hb => h (hb ▸ List.mem_cons_self b l2)
    simp only [List.cons_append, splitLinesAux, if_neg hb, List.append_eq]
    rw [ih (b :: acc) (fun hm => h (List.mem_cons_of_mem b hm))]
    simp [List.reverse_cons, List.append_assoc]

theorem stripCR_eq (l : List Nat) (h : l.getLast? ≠ some 13) : stripCR l = l := by
  simp [stripCR, h]

theorem splitLines_linesBytes_id :
    ∀ L : List Line, (∀ l ∈ L, 10 ∉ l ∧ l.getLast? ≠ some 13) →
    splitLines (linesBytes L) = L := by
  intro L
  induction L with
  | nil => intro _; rfl
  | cons l ls ih =>
    intro h
    have h1 := h l (List.mem_cons_self l ls)
    show splitLinesAux [] (l ++ 10 :: linesBytes ls) = l :: ls
    rw [splitLinesAux_append (linesBytes ls) l [] h1.1]
    rw [List.reverse_nil, List.nil_append, stripCR_eq l h1.2]
    congr 1
    exact ih (fun x hx => h x (List.mem_cons_of_mem l hx))

theorem writeLinesLoop_ok :
    ∀ (L : List Line) (wf : Nat → Option IoError) (k : Nat) (c : List Nat),
    (∀ i, i < L.length → wf (k + i) = none) →
    writeLinesLoop wf k c L = (.ok (), c ++ linesBytes L) := by
  intro L
  induction L with
  | nil =>
    intro wf k c _
    simp [writeLinesLoop, linesBytes]
  | cons l ls ih =>
    intro wf k c h
    have h0 : wf k = none := by simpa using h 0 (by simp)
    simp only [writeLinesLoop, h0]
    rw [ih wf (k + 1) (c ++ l ++ [10]) ?hrest]
    case hrest =>
      intro i hi
      have h2 := h (i + 1) (by simpa using Nat.succ_lt_succ hi)
      have h3 : k + (i + 1) = k + 1 + i := by omega
      rwa [h3] at h2
    simp [linesBytes, List.append_assoc]

theorem writeLinesLoop_err :
    ∀ (n : Nat) (L : List Line) (wf : Nat → Option IoError) (k : Nat)
      (c : List Nat) (e : IoError),
    (∀ i, i < n → wf (k + i) = none) → wf (k + n) = some e → n < L.length →
    writeLinesLoop wf k c L = (.error e, c ++ linesBytes (L.take n)) := by
  intro n
  induction n with
  | zero =>
    intro L wf k c e _ hn hl
    cases L with
    | nil => simp at hl
    | cons l ls =>
      have hk : wf k = some e := by simpa using hn
      simp [writeLinesLoop, hk, linesBytes]
  | succ m ih =>
    intro L wf k c e h0 hn hl
    cases L with
    | nil => simp at hl
    | cons l ls =>
      have hk : wf k = none := by simpa using h0 0 (Nat.succ_pos m)
      simp only [writeLinesLoop, hk]
      have ha : ∀ i, i < m → wf (k + 1 + i) = none := by
        intro i hi
        have h2 := h0 (i + 1) (Nat.succ_lt_succ hi)
        have h3 : k + (i + 1) = k + 1 + i := by omega
        rwa [h3] at h2
      have hb : wf (k + 1 + m) = some e := by
        have h3 : k + (m + 1) = k + 1 + m := by omega
        rwa [h3] at hn
      have hc : m < ls.length := by
        have := hl
        simp only [List.length_cons] at this
        omega
      rw [ih ls wf (k + 1) (c ++ l ++ [10]) e ha hb hc]
      simp [linesBytes, List.take_succ_cons, List.append_assoc]

/-! ## Claims -/

/-- C1 (counterexample): the claim is false on the code.  On the empty
filesystem the first `next` of a fresh producer returns the open error, yet
the second `next` on the resulting producer does not return `none`: the
producer re-attempts the open and yields the open error again. -/
theorem claim_C1_counterexample :
    (Lines.next emptyFS (iterate_all_lines p0)).1 =
      some (.error (.notFound p0)) ∧
    (Lines.next emptyFS (Lines.next emptyFS (iterate_all_lines p0)).2).1 =
      some (.error (.notFound p0)) ∧
    (Lines.next emptyFS (Lines.next emptyFS (iterate_all_lines p0)).2).1 ≠
      (none : Option (Except IoError Line)) := by
  refine ⟨rfl, rfl, ?_⟩
  intro hcon
  simp [Lines.next, iterate_all_lines, innerNext, emptyFS] at hcon

/-- C1 (amended): a failed open leaves the producer's state unchanged —
`next` returns the open error and the very same `Unopened` producer, so every
subsequent call re-attempts the open; while the path stays absent each call
yields the open error again (never exhaustion). -/
theorem claim_C1 (fs : FS) (p : FPath) (h : fs p = none) :
    Lines.next fs (iterate_all_lines p) =
      (some (.error (.notFound p)), iterate_all_lines p) ∧
    ∀ n, (Lines.next fs (runNexts fs n (iterate_all_lines p))).1 =
      some (.error (.notFound p)) := by
  have hstep : Lines.next fs (iterate_all_lines p) =
      (some (.error (.notFound p)), iterate_all_lines p) := by
    simp [Lines.next, iterate_all_lines, h]
  refine ⟨hstep, ?_⟩
  intro n
  have hrun : ∀ m, runNexts fs m (iterate_all_lines p) = iterate_all_lines p := by
    intro m
    induction m with
    | zero => rfl
    | succ k ihk =>
      show runNexts fs k (Lines.next fs (iterate_all_lines p)).2 =
        iterate_all_lines p
      rw [hstep]
      exact ihk
  rw [hrun n, hstep]

/-- C1 (witness): on the empty filesystem, the fourth call to `next` (after
three earlier calls) still yields the open error for the sample path. -/
theorem claim_C1_witness :
    (Lines.next emptyFS (runNexts emptyFS 3 (iterate_all_lines p0))).1 =
      some (.error (.notFound p0)) :=
  (claim_C1 emptyFS p0 rfl).2 3

/-- C2: a successful `write_all_bytes` followed by `read_all_bytes` on the
same path returns exactly the written bytes (in the unchanged filesystem). -/
theorem claim_C2 (fs : FS) (p : FPath) (B : List Nat) :
    (write_all_bytes fs p B).1 = .ok () ∧
    read_all_bytes (write_all_bytes fs p B).2 p = .ok B := by
  refine ⟨rfl, ?_⟩
  simp [write_all_bytes, read_all_bytes, FS.writeFile]

/-- C3: `iterate_all_lines` merely packages the path with an unopened reader
(its Lean type takes no filesystem argument, mirroring that the Rust function
performs no filesystem operation); the open error of a missing file surfaces
only at the first `next` call. -/
theorem claim_C3 (p : FPath) (fs : FS) (h : fs p = none) :
    iterate_all_lines p = { filename := p, iter := none } ∧
    (Lines.next fs (iterate_all_lines p)).1 = some (.error (.notFound p)) :=
  ⟨rfl, by simp [Lines.next, iterate_all_lines, h]⟩

/-- C3 (witness): instantiated at the sample path and the empty filesystem. -/
theorem claim_C3_witness :
    iterate_all_lines p0 = { filename := p0, iter := none } ∧
    (Lines.next emptyFS (iterate_all_lines p0)).1 =
      some (.error (.notFound p0)) :=
  claim_C3 p0 emptyFS rfl

/-- C4: `read_all_lines` (the collect of the lazy producer, as in the source)
equals the spec-side materialization: the file's lines in file order on
success, the first error immediately otherwise, collected lines discarded. -/
theorem claim_C4 (fs : FS) (p : FPath) :
    read_all_lines fs p = read_all_lines_spec fs p :=
  read_all_lines_eq fs p

/-- C5 (counterexample): the claim is false on the code.  The single line
`"a\r"` (bytes `[97, 13]`) contains no embedded line terminator byte `0x0A`,
yet writing it with `write_all_lines` and reading back with `read_all_lines`
yields `"a"` (bytes `[97]`): `io::Lines` strips the trailing carriage return
before the written newline. -/
theorem claim_C5_counterexample :
    (10 ∉ ([97, 13] : List Nat)) ∧
    (write_all_lines noFault emptyFS p0 [[97, 13]]).1 = .ok () ∧
    read_all_lines (write_all_lines noFault emptyFS p0 [[97, 13]]).2 p0 =
      .ok [[97]] ∧
    ([[97]] : List Line) ≠ [[97, 13]] := by
  refine ⟨by decide, rfl, ?_, by decide⟩
  rw [read_all_lines_eq]
  rfl

/-- C5 (amended): the round-trip holds for every sequence of lines none of
which contains the line-terminator byte `0x0A` and none of which ends with a
carriage-return byte `0x0D`: `write_all_lines` then `read_all_lines` yields
exactly the input, same elements, order and count. -/
theorem claim_C5 (fs : FS) (p : FPath) (L : List Line)
    (h : ∀ l ∈ L, 10 ∉ l ∧ l.getLast? ≠ some 13) :
    (write_all_lines noFault fs p L).1 = .ok () ∧
    read_all_lines (write_all_lines noFault fs p L).2 p = .ok L := by
  have hloop := writeLinesLoop_ok L noFault 0 [] (fun i _ => rfl)
  constructor
  · simp [write_all_lines, hloop]
  · rw [read_all_lines_eq]
    have h2 : (write_all_lines noFault fs p L).2 p = some (linesBytes L) := by
      simp [write_all_lines, hloop, FS.writeFile]
    simp only [read_all_lines_spec, h2]
    rw [splitLines_linesBytes_id L h]

/-- C5 (witness): the two-line sequence `["hi", ""]` round-trips exactly. -/
theorem claim_C5_witness :
    (write_all_lines noFault emptyFS p0 [[104, 105], []]).1 = .ok () ∧
    read_all_lines (write_all_lines noFault emptyFS p0 [[104, 105], []]).2 p0 =
      .ok [[104, 105], []] :=
  claim_C5 emptyFS p0 [[104, 105], []] (by decide)

/-- C6: every write-mode operation creates the target if absent and fully
replaces its content otherwise: after the call the file holds exactly the new
payload, whatever was there before; in particular writing `t1` then `t2` and
reading back yields `t2`. -/
theorem claim_C6 (fs : FS) (p : FPath) (B t t1 t2 : List Nat) (L : List Line) :
    (write_all_bytes fs p B).1 = .ok () ∧
    (write_all_bytes fs p B).2 p = some B ∧
    (write_all_text fs p t).2 p = some t ∧
    (write_all_lines noFault fs p L).1 = .ok () ∧
    (write_all_lines noFault fs p L).2 p = some (linesBytes L) ∧
    read_all_to_string ((write_all_text ((write_all_text fs p t1).2) p t2).2) p =
      .ok t2 := by
  have hloop := writeLinesLoop_ok L noFault 0 [] (fun i _ => rfl)
  refine ⟨rfl, ?_, ?_, ?_, ?_, ?_⟩
  · simp [write_all_bytes, FS.writeFile]
  · simp [write_all_text, write_all_bytes, FS.writeFile]
  · simp [write_all_lines, hloop]
  · simp [write_all_lines, hloop, FS.writeFile]
  · simp [write_all_text, write_all_bytes, read_all_to_string, FS.writeFile]

/-- C7: every append-mode operation creates the target if absent and
otherwise keeps the existing content, placing the new data at the end: after
the call the file holds old content followed by the payload; in particular
writing `"a"` then appending `"b"` and reading back yields `"ab"`. -/
theorem claim_C7 (fs : FS) (p : FPath) (B : List Nat) (L : List Line)
    (a b : List Nat) :
    (append_all_bytes fs p B).1 = .ok () ∧
    (append_all_bytes fs p B).2 p = some ((fs p).getD [] ++ B) ∧
    (append_all_text fs p B).2 p = some ((fs p).getD [] ++ B) ∧
    (append_all_lines noFault fs p L).1 = .ok () ∧
    (append_all_lines noFault fs p L).2 p =
      some ((fs p).getD [] ++ linesBytes L) ∧
    read_all_to_string ((append_all_text ((write_all_text fs p a).2) p b).2) p =
      .ok (a ++ b) := by
  have hloop := writeLinesLoop_ok L noFault 0 ((fs p).getD []) (fun i _ => rfl)
  refine ⟨rfl, ?_, ?_, ?_, ?_, ?_⟩
  · simp [append_all_bytes, FS.writeFile]
  · simp [append_all_text, append_all_bytes, FS.writeFile]
  · simp [append_all_lines, hloop]
  · simp [append_all_lines, hloop, FS.writeFile]
  · simp [append_all_text, append_all_bytes, write_all_text, write_all_bytes,
      read_all_to_string, FS.writeFile]

/-- C8: if the `writeln!` loop of `write_all_lines` runs `n` successful
writes and then fails on the next line (the `(n+1)`-th, with `n+1 ≤ |L|`),
the call returns that error and the file holds exactly the first `n` lines,
each followed by its terminator; the failing line and all later ones are
absent. -/
theorem claim_C8 (wf : Nat → Option IoError) (fs : FS) (p : FPath)
    (L : List Line) (n : Nat) (e : IoError)
    (h0 : ∀ i, i < n → wf i = none) (hn : wf n = some e) (hl : n < L.length) :
    (write_all_lines wf fs p L).1 = .error e ∧
    (write_all_lines wf fs p L).2 p = some (linesBytes (L.take n)) := by
  have hzero : ∀ i, i < n → wf (0 + i) = none := by
    intro i hi
    rw [Nat.zero_add]
    exact h0 i hi
  have hn0 : wf (0 + n) = some e := by rwa [Nat.zero_add]
  have hloop := writeLinesLoop_err n L wf 0 [] e hzero hn0 hl
  constructor
  · simp [write_all_lines, hloop]
  · simp [write_all_lines, hloop, FS.writeFile]

/-- A concrete fault oracle for the C8 witness: the second `writeln!` call
(index 1) fails, all others succeed. -/
def wf1 : Nat → Option IoError := fun k => if k = 1 then some (.other 7) else none

/-- C8 (witness): writing `["a", "b", "c"]` with the second `writeln!`
failing returns the error and leaves exactly the first line (with its
terminator) in the file. -/
theorem claim_C8_witness :
    (write_all_lines wf1 emptyFS p0 [[97], [98], [99]]).1 = .error (.other 7) ∧
    (write_all_lines wf1 emptyFS p0 [[97], [98], [99]]).2 p0 =
      some (linesBytes (([[97], [98], [99]] : List Line).take 1)) :=
  claim_C8 wf1 emptyFS p0 [[97], [98], [99]] 1 (.other 7)
    (by decide) (by decide) (by decide)

/-- C9: reading a non-existent path with `read_all_to_string` returns the
open error; in particular it never returns `Ok` with the empty string. -/
theorem claim_C9 (fs : FS) (p : FPath) (h : fs p = none) :
    read_all_to_string fs p = .error (.notFound p) ∧
    read_all_to_string fs p ≠ .ok [] := by
  have he : read_all_to_string fs p = .error (.notFound p) := by
    simp [read_all_to_string, h]
  exact ⟨he, by simp [he]⟩

/-- C9 (witness): instantiated at the sample path and the empty filesystem. -/
theorem claim_C9_witness :
    read_all_to_string emptyFS p0 = .error (.notFound p0) ∧
    read_all_to_string emptyFS p0 ≠ .ok [] :=
  claim_C9 emptyFS p0 rfl

/-- C10: writing an empty line sequence or an empty byte buffer succeeds and
leaves the target file existing with empty content — the create/truncate step
happens even with nothing to write, so prior content is discarded. -/
theorem claim_C10 (fs : FS) (p : FPath) :
    (write_all_lines noFault fs p []).1 = .ok () ∧
    (write_all_lines noFault fs p []).2 p = some [] ∧
    (write_all_bytes fs p []).1 = .ok () ∧
    (write_all_bytes fs p []).2 p = some [] := by
  refine ⟨rfl, ?_, rfl, ?_⟩ <;>
    simp [write_all_lines, write_all_bytes, writeLinesLoop, FS.writeFile]
